import Mathlib

/-!
Shallow embedding of src/pg_metrics.c: a fixed-capacity, process-shared
registry of named 64-bit counters.

Modelling conventions:
- byte strings (names, hash keys) are `List UInt8`; a C string is a byte
  buffer read up to its first NUL byte (`cstringBytes`);
- the shared dynahash table is the list of its entries, in bucket order;
- a machine `int64` is stored as its unsigned 64-bit pattern (a `Nat`
  below `2 ^ 64`) and updated with explicit wrap-around (`wrap64`);
- pointers into the table are entry indices;
- the embedding is sequential, so the coarse LWLock and the slot spinlock
  sections collapse to ordinary evaluation; the spinlock of a slot is
  tracked only through its initialization flag (`mutex_init`).
-/

namespace PgMetrics

/-- MAXMETRICSNAMELEN, pg_metrics.c line 16. -/
def MAXMETRICSNAMELEN : Nat := 127

/-- pgmetMetricType (line 22): the only metric type is COUNTER. -/
inductive pgmetMetricType where
  | COUNTER
deriving DecidableEq

/-- pgmetMetricData (line 27): the type tag, the slot spinlock (modelled by
whether SpinLockInit has run on it), and the current int64 value stored as
its unsigned 64-bit pattern. -/
structure pgmetMetricData where
  type : pgmetMetricType
  mutex_init : Bool
  value : Nat
deriving DecidableEq

/-- pgmetSharedEntry (line 58): the hash key (only its length is kept here;
after pgmet_upsert_metric fixes name_ptr the key bytes are the first
key_len bytes of metric_name), the metric data, and the inline name storage
including the NUL terminator. -/
structure pgmetSharedEntry where
  key_len : Nat
  metric_data : pgmetMetricData
  metric_name : List UInt8
deriving DecidableEq

/-- The byte span the key of an entry denotes: name_ptr aliases the inline
metric_name buffer, name_len is key_len, so the key reads the first key_len
bytes of metric_name. -/
def pgmetSharedEntry.keyBytes (e : pgmetSharedEntry) : List UInt8 :=
  e.metric_name.take e.key_len

/-- The registry: pgmet_max (the pg_metrics.max GUC) and the shared hash
table as the list of its live entries in bucket order. -/
structure pgmetState where
  pgmet_max : Nat
  entries : List pgmetSharedEntry
deriving DecidableEq

/-- Bytes of the C string a buffer denotes: everything before the first NUL
byte (what strlen and text_to_cstring expose of a byte sequence). -/
def cstringBytes (bs : List UInt8) : List UInt8 :=
  bs.takeWhile (fun b => b != 0)

/-- Result pattern of a wrapping signed 64-bit addition: the int64 addition
in pgmet_counter_add has no overflow check and wraps modulo 2 ^ 64. -/
def wrap64 (x : Int) : Nat :=
  (x % (2 ^ 64)).toNat

/-- pgmet_shared_match_fn (line 385): result 0 (match) iff the key lengths
are equal and memcmp over that length finds byte-identical content. -/
def pgmet_shared_match_fn (k1 k2 : List UInt8) : Int :=
  if k1.length = k2.length ∧ k1.take k1.length = k2.take k1.length then 0 else 1

/-- Modelled from the spec: hash_any is PostgreSQL core code, not part of
this repository; the spec calls it a well-mixed 32-bit hash over the raw
name bytes, consulting no encoding or locale information.  Modelled as an
FNV-1a style mix; the registry depends only on it being a function of the
raw bytes. -/
def hash_any (bs : List UInt8) : Nat :=
  bs.foldl (fun h b => ((h ^^^ b.toNat) * 16777619) % 2 ^ 32) 2166136261

/-- pgmet_shared_hash_fn (line 372): hashes exactly the raw key bytes
(name_ptr, name_len) with hash_any. -/
def pgmet_shared_hash_fn (k : List UInt8) : Nat :=
  hash_any k

/-- hash_search with HASH_FIND: index of the first entry whose key matches
the search key under pgmet_shared_match_fn. -/
def hash_find (entries : List pgmetSharedEntry) (key : List UInt8) :
    Option Nat :=
  entries.findIdx? (fun e => pgmet_shared_match_fn e.keyBytes key == 0)

/-- pgmet_find_metric (line 219): shared-lock lookup; returns the index of
the entry holding the metric data, or none. -/
def pgmet_find_metric (st : pgmetState) (key : List UInt8) : Option Nat :=
  hash_find st.entries key

/-- hash_search with HASH_ENTER: if the key is already present, return the
index of its entry with found = true and the table untouched; otherwise
dynahash appends a fresh entry whose key struct is a copy of the search key
and whose metric_data and metric_name are not yet initialized (placeholder
zeroes here; pgmet_upsert_metric overwrites them before anyone reads
them). -/
def hash_search_enter (entries : List pgmetSharedEntry) (key : List UInt8) :
    Nat × List pgmetSharedEntry × Bool :=
  match hash_find entries key with
  | some i => (i, entries, true)
  | none =>
    (entries.length,
     entries ++ [{ key_len := key.length,
                   metric_data := { type := .COUNTER, mutex_init := false, value := 0 },
                   metric_name := [] }],
     false)

/-- pgmet_upsert_metric (line 237): fast-path shared-lock lookup; on a miss
take the exclusive lock, fail when the table already holds pgmet_max
entries, otherwise HASH_ENTER; if another backend created the entry return
it as is, and if this call created it, initialize it: fix the key pointer
to the inline storage, zero the metric data, set the type, run
SpinLockInit, zero the value, and copy the name bytes plus a NUL terminator
into metric_name.  The returned index stands for the pointer to the
metric_data of the entry. -/
def pgmet_upsert_metric (st : pgmetState) (name : List UInt8)
    (mtype : pgmetMetricType) : Option (Nat × pgmetState) :=
  let keyb := cstringBytes name
  match pgmet_find_metric st keyb with
  | some i => some (i, st)
  | none =>
    if st.pgmet_max ≤ st.entries.length then
      none
    else
      match hash_search_enter st.entries keyb with
      | (i, entries1, true) => some (i, { st with entries := entries1 })
      | (i, entries1, false) =>
        let newEntry : pgmetSharedEntry :=
          { key_len := keyb.length,
            metric_data := { type := mtype, mutex_init := true, value := 0 },
            metric_name := keyb ++ [0] }
        some (i, { st with entries := entries1.set i newEntry })

/-- The condition ereport raises in pgmet_counter_add when the name is too
long. -/
inductive pgmetError where
  | invalid_parameter_value
deriving DecidableEq

instance {ε α : Type} [DecidableEq ε] [DecidableEq α] :
    DecidableEq (Except ε α) := fun x y =>
  match x, y with
  | .ok a, .ok b =>
    if h : a = b then .isTrue (by rw [h]) else .isFalse (by simp [h])
  | .error a, .error b =>
    if h : a = b then .isTrue (by rw [h]) else .isFalse (by simp [h])
  | .ok _, .error _ => .isFalse (by simp)
  | .error _, .ok _ => .isFalse (by simp)

/-- pgmet_counter_add (line 89): reject names longer than 127 bytes, no-op
when the global pgmet pointer is still NULL (first Bool argument), upsert
the metric, then under the slot spinlock read the previous value, add the
increment with 64-bit wrap-around, and return the previous value.  The
metric_name argument is the byte content of the text argument; the branch
returning `.ok (none, st1)` on a missing index is unreachable, since the
index an upsert returns always points at a live entry. -/
def pgmet_counter_add (pgmet_initialized : Bool) (st : pgmetState)
    (metric_name : List UInt8) (increment : Int) :
    Except pgmetError (Option Nat × pgmetState) :=
  if MAXMETRICSNAMELEN < metric_name.length then
    .error .invalid_parameter_value
  else if pgmet_initialized = false then
    .ok (none, st)
  else
    match pgmet_upsert_metric st metric_name .COUNTER with
    | none => .ok (none, st)
    | some (i, st1) =>
      match st1.entries.get? i with
      | none => .ok (none, st1)
      | some e =>
        let e1 : pgmetSharedEntry :=
          { e with metric_data := { e.metric_data with
              value := wrap64 ((e.metric_data.value : Int) + increment) } }
        .ok (some e.metric_data.value,
             { st1 with entries := st1.entries.set i e1 })

/-- pgmet_metrics (line 125): under the shared coarse lock read the entry
count, collect the metric-data and name pointers of every entry into
buffers sized to exactly that count, release the lock, then for each
collected slot read its value under the slot spinlock and emit a
(name, "COUNTER", value) tuple.  The name emitted is the C string the
inline buffer holds; the type label string is hard-coded. -/
def pgmet_metrics (st : pgmetState) : List (List UInt8 × String × Nat) :=
  let num_metrics := st.entries.length
  let metrics := st.entries.map (fun e => e.metric_data)
  let metric_names := st.entries.map (fun e => e.metric_name)
  (List.range num_metrics).map (fun i =>
    (cstringBytes (metric_names.getD i []),
     "COUNTER",
     (metrics.getD i { type := .COUNTER, mutex_init := false, value := 0 }).value))

/-- The emission loop of pgmet_metrics declares its local variable metric
inside the loop body, so when the Assert on line 195 executes the variable
has not yet been assigned for the iteration; none models the unassigned
variable. -/
def enumMetricVarAtAssert : Option pgmetMetricData := none

/-- What the Assert on line 195 inspects: the type field read through the
current value of the local metric variable. -/
def enumAssertInspects (metricVar : Option pgmetMetricData) :
    Option pgmetMetricType :=
  metricVar.map (fun m => m.type)

/-- The assignment metric = metrics[i] on line 197, which executes only
after the Assert has already run. -/
def enumAssignMetric (m : pgmetMetricData) : Option pgmetMetricData :=
  some m

/-- A concrete initialized empty registry, used to instantiate theorems. -/
def exEmpty : pgmetState :=
  { pgmet_max := 50, entries := [] }

/-- A concrete registry holding one counter named "a" with value 5. -/
def exOne : pgmetState :=
  { pgmet_max := 50,
    entries := [{ key_len := 1,
                  metric_data := { type := .COUNTER, mutex_init := true, value := 5 },
                  metric_name := [97, 0] }] }

/-- A concrete registry at capacity: pgmet_max = 1 with one live entry. -/
def exFull : pgmetState :=
  { exOne with pgmet_max := 1 }

/-- The registry exOne after its counter has been decremented by 3. -/
def exOneMinus3 : pgmetState :=
  { pgmet_max := 50,
    entries := [{ key_len := 1,
                  metric_data := { type := .COUNTER, mutex_init := true, value := 2 },
                  metric_name := [97, 0] }] }

/-- The registry exEmpty after the counter named "a" has been created with
value zero. -/
def exCreated : pgmetState :=
  { pgmet_max := 50,
    entries := [{ key_len := 1,
                  metric_data := { type := .COUNTER, mutex_init := true, value := 0 },
                  metric_name := [97, 0] }] }

/-- Setting position l.length of l ++ [a] replaces a. -/
theorem list_set_append_length {α : Type} (l : List α) (a b : α) :
    (l ++ [a]).set l.length b = l ++ [b] := by
  induction l with
  | nil => rfl
  | cons x xs ih => simp [ih]

/-- Writing back the element already stored at a position leaves the list
unchanged. -/
theorem list_set_get_self {α : Type} (l : List α) (i : Nat) (a : α)
    (h : l.get? i = some a) : l.set i a = l := by
  induction l generalizing i with
  | nil => rfl
  | cons x xs ih =>
    cases i with
    | zero =>
      simp only [List.get?] at h
      cases h
      rfl
    | succ n =>
      simp only [List.get?] at h
      simp [ih n h]

/-- C6: pgmet_shared_match_fn declares two keys the same (returns 0) iff
they have equal length and byte-for-byte identical content, which for byte
spans means list equality; and pgmet_shared_hash_fn is a function of the
raw key bytes alone, so byte-identical keys hash identically — no
encoding, locale, normalization, or case-folding is consulted. -/
theorem pgmet_shared_match_fn_iff_byte_equal (k1 k2 : List UInt8) :
    (pgmet_shared_match_fn k1 k2 = 0 ↔ k1 = k2) ∧
    (k1 = k2 → pgmet_shared_hash_fn k1 = pgmet_shared_hash_fn k2) := by
  refine ⟨?_, fun h => by rw [h]⟩
  unfold pgmet_shared_match_fn
  split
  case isTrue h =>
    have h2 := h.2
    rw [List.take_length, List.take_of_length_le (Nat.le_of_eq h.1.symm)] at h2
    exact ⟨fun _ => h2, fun _ => rfl⟩
  case isFalse h =>
    constructor
    · intro habs
      exact absurd habs (by norm_num)
    · intro heq
      exact absurd ⟨congrArg List.length heq, by rw [heq]⟩ h

/-- Witness for C6 at concrete keys. -/
theorem pgmet_shared_match_fn_iff_byte_equal_witness :
    pgmet_shared_match_fn [97, 98] [97, 98] = 0 :=
  (pgmet_shared_match_fn_iff_byte_equal [97, 98] [97, 98]).1.mpr rfl

/-- C7: the Assert in the emission loop of pgmet_metrics runs while the
loop-local metric variable is still unassigned, so it inspects none rather
than the type of the entry about to be emitted; only the assignment that
executes after it would let it see that type. -/
theorem pgmet_metrics_assert_reads_unassigned (st : pgmetState) (i : Nat)
    (hi : i < st.entries.length) :
    enumAssertInspects enumMetricVarAtAssert = none ∧
    enumAssertInspects enumMetricVarAtAssert ≠
      some (st.entries.get ⟨i, hi⟩).metric_data.type ∧
    enumAssertInspects (enumAssignMetric (st.entries.get ⟨i, hi⟩).metric_data) =
      some (st.entries.get ⟨i, hi⟩).metric_data.type := by
  refine ⟨rfl, ?_, rfl⟩
  intro h
  simp [enumAssertInspects, enumMetricVarAtAssert] at h

/-- Witness for C7 on the one-entry registry. -/
theorem pgmet_metrics_assert_reads_unassigned_witness :
    0 < exOne.entries.length ∧
    enumAssertInspects enumMetricVarAtAssert = none :=
  ⟨by decide, (pgmet_metrics_assert_reads_unassigned exOne 0 (by decide)).1⟩

/-- C8: called before the shared registry is initialized with a
valid-length name, pgmet_counter_add is a benign no-op: it returns no
value, raises no error, and leaves the state exactly as it was. -/
theorem pgmet_counter_add_uninitialized_noop (st : pgmetState)
    (name : List UInt8) (increment : Int)
    (hlen : name.length ≤ MAXMETRICSNAMELEN) :
    pgmet_counter_add false st name increment = .ok (none, st) := by
  unfold pgmet_counter_add
  rw [if_neg (Nat.not_lt.mpr hlen), if_pos rfl]

/-- Witness for C8 at a concrete registry and name. -/
theorem pgmet_counter_add_uninitialized_noop_witness :
    pgmet_counter_add false exOne [97] 7 = .ok (none, exOne) :=
  pgmet_counter_add_uninitialized_noop exOne [97] 7 (by decide)

/-- C10: the length check of pgmet_counter_add runs before the
uninitialized-registry check, so an over-long name raises the validation
error even when the registry is not initialized, never the benign
no-op. -/
theorem pgmet_counter_add_length_checked_first (st : pgmetState)
    (name : List UInt8) (increment : Int)
    (hlen : MAXMETRICSNAMELEN < name.length) :
    pgmet_counter_add false st name increment =
      .error .invalid_parameter_value := by
  unfold pgmet_counter_add
  rw [if_pos hlen]

set_option maxRecDepth 4000 in
/-- Witness for C10 with a 128-byte name on an uninitialized registry. -/
theorem pgmet_counter_add_length_checked_first_witness :
    pgmet_counter_add false exEmpty (List.replicate 128 97) 0 =
      .error .invalid_parameter_value :=
  pgmet_counter_add_length_checked_first exEmpty (List.replicate 128 97) 0
    (by simp [MAXMETRICSNAMELEN])

/-- C3: pgmet_counter_add accepts any name of at most 127 bytes — in
particular exactly 127 bytes — returning an ok result, and rejects a
longer name with the validation error; the rejection holds for every
registry state and for both initialization states, because the check runs
before the registry pointer or the table is consulted, and the error
carries no successor state, so nothing changes. -/
theorem pgmet_counter_add_name_length_boundary (b : Bool) (st : pgmetState)
    (name : List UInt8) (increment : Int) :
    (name.length ≤ MAXMETRICSNAMELEN →
      ∃ r, pgmet_counter_add b st name increment = .ok r) ∧
    (MAXMETRICSNAMELEN < name.length →
      pgmet_counter_add b st name increment =
        .error .invalid_parameter_value) := by
  constructor
  · intro hlen
    have hlt := Nat.not_lt.mpr hlen
    cases b with
    | false =>
      exact ⟨(none, st), by unfold pgmet_counter_add; rw [if_neg hlt, if_pos rfl]⟩
    | true =>
      unfold pgmet_counter_add
      rw [if_neg hlt, if_neg (by simp)]
      cases hu : pgmet_upsert_metric st name .COUNTER with
      | none => exact ⟨(none, st), rfl⟩
      | some p =>
        obtain ⟨i, st1⟩ := p
        dsimp only
        cases hg : st1.entries.get? i with
        | none => exact ⟨(none, st1), rfl⟩
        | some e => exact ⟨_, rfl⟩
  · intro hlen
    unfold pgmet_counter_add
    rw [if_pos hlen]

set_option maxRecDepth 4000 in
/-- Witness for C3: a 127-byte name is accepted, a 128-byte name is
rejected. -/
theorem pgmet_counter_add_name_length_boundary_witness :
    (∃ r, pgmet_counter_add true exEmpty (List.replicate 127 97) 0 = .ok r) ∧
    pgmet_counter_add true exEmpty (List.replicate 128 97) 0 =
      .error .invalid_parameter_value :=
  ⟨(pgmet_counter_add_name_length_boundary true exEmpty
      (List.replicate 127 97) 0).1 (by simp [MAXMETRICSNAMELEN]),
   (pgmet_counter_add_name_length_boundary true exEmpty
      (List.replicate 128 97) 0).2 (by simp [MAXMETRICSNAMELEN])⟩

/-- C1: when the live-entry count has reached pgmet_max, upserting a name
that is not already present fails with no slot created — the state the
increment entry point ends in is exactly the starting state and it returns
no value — while upserting any already-present name still returns its slot
with no error raised. -/
theorem pgmet_upsert_capacity_exceeded (st : pgmetState) (name : List UInt8)
    (mtype : pgmetMetricType)
    (hfull : st.pgmet_max ≤ st.entries.length) :
    (pgmet_find_metric st (cstringBytes name) = none →
      pgmet_upsert_metric st name mtype = none ∧
      (name.length ≤ MAXMETRICSNAMELEN →
        ∀ increment : Int,
          pgmet_counter_add true st name increment = .ok (none, st))) ∧
    (∀ i, pgmet_find_metric st (cstringBytes name) = some i →
      pgmet_upsert_metric st name mtype = some (i, st)) := by
  constructor
  · intro habsent
    have hup : ∀ t, pgmet_upsert_metric st name t = none := by
      intro t
      unfold pgmet_upsert_metric
      simp only [habsent]
      rw [if_pos hfull]
    refine ⟨hup mtype, fun hlen increment => ?_⟩
    unfold pgmet_counter_add
    rw [if_neg (Nat.not_lt.mpr hlen), if_neg (by simp), hup .COUNTER]
  · intro i hfound
    unfold pgmet_upsert_metric
    simp only [hfound]

/-- Witness for C1 on a registry at capacity: name 98 is absent and
rejected, name 97 is present and still served. -/
theorem pgmet_upsert_capacity_exceeded_witness :
    pgmet_upsert_metric exFull [98] .COUNTER = none ∧
    pgmet_counter_add true exFull [98] 0 = .ok (none, exFull) ∧
    pgmet_upsert_metric exFull [97] .COUNTER = some (0, exFull) := by
  have h1 := pgmet_upsert_capacity_exceeded exFull [98] .COUNTER (by decide)
  have h2 := pgmet_upsert_capacity_exceeded exFull [97] .COUNTER (by decide)
  have ha := h1.1 (by decide)
  exact ⟨ha.1, ha.2 (by decide) 0, h2.2 0 (by decide)⟩

/-- C2: whenever the upsert resolves the name to the slot at index i,
pgmet_counter_add returns the value of that slot as it was before the call
and stores back the old value plus the delta with no overflow check,
wrapping modulo 2 ^ 64; nothing but the value of that slot changes. -/
theorem pgmet_counter_add_wraps_mod_2_64 (st st1 : pgmetState)
    (name : List UInt8) (increment : Int) (i : Nat) (e : pgmetSharedEntry)
    (hlen : name.length ≤ MAXMETRICSNAMELEN)
    (hups : pgmet_upsert_metric st name .COUNTER = some (i, st1))
    (hget : st1.entries.get? i = some e) :
    pgmet_counter_add true st name increment =
      .ok (some e.metric_data.value,
        ⟨st1.pgmet_max,
         st1.entries.set i
           ⟨e.key_len,
            ⟨e.metric_data.type, e.metric_data.mutex_init,
             ((((e.metric_data.value : Int) + increment) % (2 ^ 64))).toNat⟩,
            e.metric_name⟩⟩) := by
  unfold pgmet_counter_add
  rw [if_neg (Nat.not_lt.mpr hlen), if_neg (by simp), hups]
  dsimp only
  rw [hget]
  rfl

/-- Witness for C2: decrementing the counter stored at 5 by 3 returns 5
and stores 2. -/
theorem pgmet_counter_add_wraps_mod_2_64_witness :
    pgmet_counter_add true exOne [97] (-3) = .ok (some 5, exOneMinus3) := by
  have h := pgmet_counter_add_wraps_mod_2_64 exOne exOne [97] (-3) 0
    ⟨1, ⟨.COUNTER, true, 5⟩, [97, 0]⟩ (by decide) (by decide) (by decide)
  rw [h]
  decide

/-- C9 fails as stated: on an initialized registry that does not contain
the name yet, increment(name, 0) creates a new slot, so the registry state
is modified rather than left untouched. -/
theorem pgmet_counter_add_zero_creates_absent_name :
    pgmet_counter_add true exEmpty [97] 0 ≠ .ok (some 0, exEmpty) ∧
    pgmet_counter_add true exEmpty [97] 0 = .ok (some 0, exCreated) ∧
    exCreated ≠ exEmpty :=
  ⟨by decide, by decide, by decide⟩

/-- C9 amended: for a name already present in an initialized registry,
increment(name, 0) returns the current value of the counter and leaves the
registry state unmodified; for an absent name the call instead creates a
new zero-valued slot, modifying the registry. -/
theorem pgmet_counter_add_zero_roundtrip_existing (st : pgmetState)
    (name : List UInt8) (i : Nat) (e : pgmetSharedEntry)
    (hlen : name.length ≤ MAXMETRICSNAMELEN)
    (hfind : pgmet_find_metric st (cstringBytes name) = some i)
    (hget : st.entries.get? i = some e)
    (hval : e.metric_data.value < 2 ^ 64) :
    pgmet_counter_add true st name 0 = .ok (some e.metric_data.value, st) := by
  have hup : pgmet_upsert_metric st name .COUNTER = some (i, st) := by
    unfold pgmet_upsert_metric
    simp only [hfind]
  unfold pgmet_counter_add
  rw [if_neg (Nat.not_lt.mpr hlen), if_neg (by simp), hup]
  dsimp only
  rw [hget]
  have hw : wrap64 ((e.metric_data.value : Int) + 0) = e.metric_data.value := by
    unfold wrap64
    rw [Int.add_zero,
      Int.emod_eq_of_lt (Int.natCast_nonneg _) (by exact_mod_cast hval)]
    exact Int.toNat_natCast _
  dsimp only
  rw [hw]
  have he : st.entries.set i
      ⟨e.key_len,
       ⟨e.metric_data.type, e.metric_data.mutex_init, e.metric_data.value⟩,
       e.metric_name⟩ = st.entries := by
    have hee : (⟨e.key_len,
        ⟨e.metric_data.type, e.metric_data.mutex_init, e.metric_data.value⟩,
        e.metric_name⟩ : pgmetSharedEntry) = e := rfl
    rw [hee]
    exact list_set_get_self st.entries i e hget
  rw [he]

/-- Witness for the amended C9 on the one-entry registry. -/
theorem pgmet_counter_add_zero_roundtrip_existing_witness :
    pgmet_counter_add true exOne [97] 0 = .ok (some 5, exOne) :=
  pgmet_counter_add_zero_roundtrip_existing exOne [97] 0
    ⟨1, ⟨.COUNTER, true, 5⟩, [97, 0]⟩ (by decide) (by decide) (by decide)
    (by decide)

/-- C4: upserting an absent name (with room left) appends exactly one new
entry whose value is zero, whose type is the given tag, whose spinlock has
been initialized, and whose inline storage holds the name bytes followed
by a NUL terminator; the key of the new entry reads its bytes out of the
inline copy inside the entry itself (metric_name), and they equal the
inserted name bytes.  When HASH_ENTER instead finds an existing entry,
that entry is returned with the table untouched, so nothing is
re-initialized. -/
theorem pgmet_upsert_initializes_new_entry (st : pgmetState)
    (name : List UInt8) (mtype : pgmetMetricType)
    (habsent : pgmet_find_metric st (cstringBytes name) = none)
    (hroom : st.entries.length < st.pgmet_max) :
    (pgmet_upsert_metric st name mtype =
      some (st.entries.length,
        ⟨st.pgmet_max,
         st.entries ++
           [⟨(cstringBytes name).length, ⟨mtype, true, 0⟩,
             cstringBytes name ++ [0]⟩]⟩)) ∧
    pgmetSharedEntry.keyBytes
        ⟨(cstringBytes name).length, ⟨mtype, true, 0⟩, cstringBytes name ++ [0]⟩
      = cstringBytes name ∧
    (∀ (entries : List pgmetSharedEntry) (key : List UInt8) (j : Nat),
      hash_find entries key = some j →
      hash_search_enter entries key = (j, entries, true)) := by
  refine ⟨?_, ?_, ?_⟩
  · unfold pgmet_upsert_metric
    simp only [habsent]
    rw [if_neg (Nat.not_le.mpr hroom)]
    have hfe : hash_find st.entries (cstringBytes name) = none := habsent
    unfold hash_search_enter
    rw [hfe]
    dsimp only
    rw [list_set_append_length]
  · unfold pgmetSharedEntry.keyBytes
    exact List.take_left _ _
  · intro entries key j hfind
    unfold hash_search_enter
    rw [hfind]

/-- Witness for C4: inserting name 97 into the empty registry. -/
theorem pgmet_upsert_initializes_new_entry_witness :
    pgmet_upsert_metric exEmpty [97] .COUNTER = some (0, exCreated) := by
  have h := (pgmet_upsert_initializes_new_entry exEmpty [97] .COUNTER
    (by decide) (by decide)).1
  rw [h]
  decide

/-- Indexing a mapped list through getD over the full range of positions
recovers the map itself. -/
theorem list_range_map_two_getD {α β γ δ : Type} (l : List α) (f : α → β)
    (g : α → γ) (db : β) (dc : γ) (k : β → γ → δ) :
    (List.range l.length).map (fun i =>
      k ((l.map f).getD i db) ((l.map g).getD i dc)) =
    l.map (fun a => k (f a) (g a)) := by
  induction l with
  | nil => rfl
  | cons x xs ih =>
    simp only [List.length_cons, List.range_succ_eq_map, List.map_cons,
      List.map_map, Function.comp_def, Nat.succ_eq_add_one,
      List.getD_cons_zero, List.getD_cons_succ]
    rw [ih]

/-- C5: pgmet_metrics returns exactly one (name, type, value) tuple per
live entry, in table order: the name is the C string held by the inline
buffer of the entry, the value is the current value of the entry, and the
type label is COUNTER for all of them; the temporary buffers are sized to
exactly the entry count read in the same critical section, so the output
length equals the live-entry count. -/
theorem pgmet_metrics_complete (st : pgmetState) :
    pgmet_metrics st =
      st.entries.map (fun e =>
        (cstringBytes e.metric_name, "COUNTER", e.metric_data.value)) ∧
    (pgmet_metrics st).length = st.entries.length := by
  have h : pgmet_metrics st =
      st.entries.map (fun e =>
        (cstringBytes e.metric_name, "COUNTER", e.metric_data.value)) := by
    unfold pgmet_metrics
    exact list_range_map_two_getD st.entries
      (fun e => e.metric_name) (fun e => e.metric_data) []
      ⟨.COUNTER, false, 0⟩
      (fun n m => (cstringBytes n, "COUNTER", m.value))
  exact ⟨h, by rw [h, List.length_map]⟩

end PgMetrics
